import Mathlib

/-!
# Verification of the sdfx cubic-spline / tridiagonal-solver / renderer core

Shallow embedding of the Go sources (package `sdf`, cubic-spline file, and
package `dev`, `renderer3`) and proofs of the specification claims about them.
Go `float64` arithmetic is modelled by exact rational arithmetic `ℚ`
(the numeric claims are stated "in exact arithmetic"); Go `panic` is
modelled by `Option`/`Except` failure values.
-/

namespace Sdfx

/-- Modelled from the spec (§3 data model): `sdf.V2`, an immutable pair of
scalars with fields `X`, `Y` (the struct itself lives outside `src/`). -/
structure V2 where
  X : ℚ
  Y : ℚ
deriving DecidableEq

instance : Inhabited V2 := ⟨⟨0, 0⟩⟩

/-- Modelled from the spec (§3 data model): `sdf.V3`, an immutable triple of
scalars with fields `X`, `Y`, `Z`.  In `TriDiagonal` a `V3` row holds
(sub-diagonal, diagonal, super-diagonal). -/
structure V3 where
  X : ℚ
  Y : ℚ
  Z : ℚ
deriving DecidableEq

instance : Inhabited V3 := ⟨⟨0, 0, 0⟩⟩

/-! ## Tridiagonal solver (Thomas algorithm), `TriDiagonal` in part_000:24-54

The Go routine works on arrays `m`, `d`, `cp`, `x` indexed `0..n-1`.
We embed the four loop-carried sequences as `ℕ`-indexed recursions:
`triCp i` is `cp[i]` at the end of the forward sweep, `triDenom i` is the
denominator `m[i].Y - m[i].X*cp[i-1]` guarding iteration `i` (for `i = 0`
it is the separately-checked `m[0].Y`), `triFwd i` is `x[i]` after the
forward sweep, and `triBack n i` is `x[i]` after back substitution. -/


/-- Go `cp[i]` of part_000:39,46: `cp[0] = m[0].Z/m[0].Y`;
`cp[i] = m[i].Z / (m[i].Y - m[i].X*cp[i-1])`. -/
def triCp (mv : ℕ → V3) : ℕ → ℚ
  | 0 => (mv 0).Z / (mv 0).Y
  | i + 1 => (mv (i + 1)).Z / ((mv (i + 1)).Y - (mv (i + 1)).X * triCp mv i)

/-- The forward-elimination denominator of iteration `i` (part_000:42);
for `i = 0` it is `m[0].Y`, the divisor used at part_000:39-40. -/
def triDenom (mv : ℕ → V3) : ℕ → ℚ
  | 0 => (mv 0).Y
  | i + 1 => (mv (i + 1)).Y - (mv (i + 1)).X * triCp mv i

/-- Go `x[i]` after the forward sweep (part_000:40,47). -/
def triFwd (mv : ℕ → V3) (dv : ℕ → ℚ) : ℕ → ℚ
  | 0 => dv 0 / (mv 0).Y
  | i + 1 => (dv (i + 1) - (mv (i + 1)).X * triFwd mv dv i) / triDenom mv (i + 1)

/-- Back-substitution helper: `fuel` counts the updates still to be applied
above index `i`; `triBackAux fuel i` is `x[i]` when `i + fuel = n - 1`. -/
def triBackAux (mv : ℕ → V3) (dv : ℕ → ℚ) : ℕ → ℕ → ℚ
  | 0, i => triFwd mv dv i
  | fuel + 1, i => triFwd mv dv i - triCp mv i * triBackAux mv dv fuel (i + 1)

/-- Go `x[i]` after the back-substitution loop of part_000:50-52:
`x[n-1]` keeps its forward value, and `x[i] = x[i] - cp[i]*x[i+1]`
descending from `i = n-2`. -/
def triBack (mv : ℕ → V3) (dv : ℕ → ℚ) (n i : ℕ) : ℚ :=
  triBackAux mv dv (n - 1 - i) i

/-- Go `TriDiagonal` of part_000:24-54.  Each `none` branch is one of the Go
panics, in source order: `len(d) != n` (line 27), the `m[0]` accesses panic
outright when `n = 0`, `m[0].X != 0 || m[n-1].Z != 0` (line 30),
`m[0].Y == 0` (line 33), and a zero elimination denominator at some
iteration `i ≥ 1` of the forward loop (line 43).  On success it returns the
back-substituted solution vector. -/
def TriDiagonal (m : List V3) (d : List ℚ) : Option (List ℚ) :=
  if d.length ≠ m.length then none
  else if m.length = 0 then none
  else if (m.getD 0 default).X ≠ 0 ∨ (m.getD (m.length - 1) default).Z ≠ 0 then none
  else if (m.getD 0 default).Y = 0 then none
  else if (List.range m.length).any
      (fun i => i != 0 && triDenom (fun j => m.getD j default) i == 0) then none
  else some ((List.range m.length).map
    (triBack (fun j => m.getD j default) (fun j => d.getD j 0) m.length))

/-! ## Cubic polynomials, part_000:58-83 -/


/-- Go `CubicPolynomial` of part_000:58-60: coefficients of
`a + b*t + c*t^2 + d*t^3`. -/
structure CubicPolynomial where
  a : ℚ
  b : ℚ
  c : ℚ
  d : ℚ
deriving DecidableEq

instance : Inhabited CubicPolynomial := ⟨⟨0, 0, 0, 0⟩⟩

/-- Go `(*CubicPolynomial).f0` of part_000:63-65 (Horner form, as in the Go). -/
def CubicPolynomial.f0 (p : CubicPolynomial) (t : ℚ) : ℚ :=
  p.a + t * (p.b + t * (p.c + p.d * t))

/-- Go `(*CubicPolynomial).f1` of part_000:68-70: first derivative. -/
def CubicPolynomial.f1 (p : CubicPolynomial) (t : ℚ) : ℚ :=
  p.b + t * (2 * p.c + 3 * p.d * t)

/-- Go `(*CubicPolynomial).f2` of part_000:73-75: second derivative. -/
def CubicPolynomial.f2 (p : CubicPolynomial) (t : ℚ) : ℚ :=
  2 * p.c + 6 * p.d * t

/-- Go `(*CubicPolynomial).Set` of part_000:78-83, as a pure constructor:
Hermite boundary data `(y0, y1, D0, D1)` to power-basis coefficients. -/
def CubicPolynomial.Set (y0 y1 D0 D1 : ℚ) : CubicPolynomial :=
  { a := y0
    b := D0
    c := 3 * (y1 - y0) - 2 * D0 - D1
    d := 2 * (y0 - y1) + D0 + D1 }

/-! ## Spline segments and the fitted spline curve, part_000:102-229 -/


/-- Go `CubicSpline` of part_000:102-106: one segment of the fitted curve. -/
structure CubicSpline where
  idx : ℕ
  p0 : V2
  p1 : V2
  px : CubicPolynomial
  py : CubicPolynomial
deriving DecidableEq

instance : Inhabited CubicSpline := ⟨⟨0, default, default, default, default⟩⟩

/-- Go `(*CubicSpline).f0` of part_000:109-111. -/
def CubicSpline.f0 (s : CubicSpline) (t : ℚ) : V2 :=
  ⟨s.px.f0 t, s.py.f0 t⟩

/-- Go `(*CubicSpline).f1` of part_000:114-116. -/
def CubicSpline.f1 (s : CubicSpline) (t : ℚ) : V2 :=
  ⟨s.px.f1 t, s.py.f1 t⟩

/-- Go `(*CubicSpline).f2` of part_000:119-121. -/
def CubicSpline.f2 (s : CubicSpline) (t : ℚ) : V2 :=
  ⟨s.px.f2 t, s.py.f2 t⟩

/-- Go `CubicSplineSDF2` of part_000:139-142, restricted to the segment list.
The cached bounding box `bb` is omitted: computing it runs the
quadratic root-finder (`f1_zeroes`), whose square roots are not rational;
no claim under verification touches the bounding box. -/
structure CubicSplineSDF2 where
  spline : List CubicSpline
deriving DecidableEq

/-- Modelled from the spec (§4.2): `sdf.Clamp`, which lives outside `src/`
("clamping t to the valid range"): clamp `x` into `[a, b]`. -/
def Clamp (x a b : ℚ) : ℚ :=
  if x < a then a else if x > b then b else x

/-- Go `(*CubicSplineSDF2).Find` of part_000:145-156.  Returns the segment
index together with the local parameter (the Go returns the pointer
`&s.spline[i]`; we return `i` itself so that in-boundedness is visible).
Go's `int(t)` truncates toward zero, which on the clamped value `t ≥ 0`
agrees with the floor used here. -/
def CubicSplineSDF2.Find (s : CubicSplineSDF2) (t : ℚ) : ℕ × ℚ :=
  if (Int.floor (Clamp t 0 (s.spline.length : ℚ))).toNat = s.spline.length
  then (s.spline.length - 1, 1)
  else ((Int.floor (Clamp t 0 (s.spline.length : ℚ))).toNat,
    Clamp t 0 (s.spline.length : ℚ)
      - ((Int.floor (Clamp t 0 (s.spline.length : ℚ))).toNat : ℚ))

/-- Go `(*CubicSplineSDF2).F0` of part_000:159-162. -/
def CubicSplineSDF2.F0 (s : CubicSplineSDF2) (t : ℚ) : V2 :=
  let p := s.Find t
  (s.spline.getD p.1 default).f0 p.2

/-- Go `(*CubicSplineSDF2).Evaluate` of part_000:223-225: the stubbed
distance query, a constant `0`. -/
def CubicSplineSDF2.Evaluate (s : CubicSplineSDF2) (p : V2) : ℚ :=
  0

/-- The matrix row written by `CubicSpline2D` (part_000:187-199): the Go
fills rows `1..n-2` with `(1,4,1)` and then overwrites row `0` with
`(0,2,1)` and row `n-1` with `(1,2,0)`. -/
def splineRow (n i : ℕ) : V3 :=
  if i = 0 then ⟨0, 2, 1⟩ else if i = n - 1 then ⟨1, 2, 0⟩ else ⟨1, 4, 1⟩

/-- The rhs entry written by `CubicSpline2D` (part_000:187-199) for one
axis whose knot coordinates are `g 0, ..., g (n-1)`. -/
def splineRhs (g : ℕ → ℚ) (n i : ℕ) : ℚ :=
  if i = 0 then 3 * (g 1 - g 0)
  else if i = n - 1 then 3 * (g (n - 1) - g (n - 2))
  else 3 * (g (i + 1) - g (i - 1))

/-- The matrix list `m` built by `CubicSpline2D`. -/
def splineMList (n : ℕ) : List V3 :=
  (List.range n).map (splineRow n)

/-- The rhs list (`dx` or `dy`) built by `CubicSpline2D` for the axis
selected by `g`. -/
def splineDList (knot : List V2) (g : V2 → ℚ) : List ℚ :=
  (List.range knot.length).map
    (splineRhs (fun i => g (knot.getD i default)) knot.length)

/-- Go `CubicSpline2D` of part_000:176-221.  `none` models the `panic` on
fewer than two knots (line 178) and any panic raised inside the two
`TriDiagonal` calls (lines 201-202; proved unreachable below).  On success
the segments are assembled exactly as in part_000:206-213, the solver
outputs being the per-knot first derivatives.  (The cached bounding box
of part_000:215-219 is omitted, see `CubicSplineSDF2`.) -/
def CubicSpline2D (knot : List V2) : Option CubicSplineSDF2 :=
  if knot.length < 2 then none
  else
    match TriDiagonal (splineMList knot.length) (splineDList knot (fun v => v.X)),
          TriDiagonal (splineMList knot.length) (splineDList knot (fun v => v.Y)) with
    | some xx, some xy =>
        some ⟨(List.range (knot.length - 1)).map (fun i =>
          { idx := i
            p0 := knot.getD i default
            p1 := knot.getD (i + 1) default
            px := CubicPolynomial.Set (knot.getD i default).X
              (knot.getD (i + 1) default).X (xx.getD i 0) (xx.getD (i + 1) 0)
            py := CubicPolynomial.Set (knot.getD i default).Y
              (knot.getD (i + 1) default).Y (xy.getD i 0) (xy.getD (i + 1) 0) })⟩
    | some _, none => none
    | none, _ => none

/-! ### The spline tridiagonal system always solves (diagonal dominance) -/


/-- The matrix access function `TriDiagonal` sees for the spline system. -/
def splineMv (n : ℕ) : ℕ → V3 :=
  fun j => (splineMList n).getD j default

/-- The rhs access function `TriDiagonal` sees for one axis. -/
def splineDv (knot : List V2) (g : V2 → ℚ) : ℕ → ℚ :=
  fun j => (splineDList knot g).getD j 0

/-- The per-knot first derivatives obtained by solving the spline system
for the axis selected by `g` (the entries of `xx`/`xy` in part_000:201-202). -/
def splineDeriv (knot : List V2) (g : V2 → ℚ) : ℕ → ℚ :=
  triBack (splineMv knot.length) (splineDv knot g) knot.length

/-! ### Explicit description of the fitted spline -/


/-- Segment `i` of the fitted spline, as assembled in part_000:206-213. -/
def splineSeg (knot : List V2) (i : ℕ) : CubicSpline :=
  { idx := i
    p0 := knot.getD i default
    p1 := knot.getD (i + 1) default
    px := CubicPolynomial.Set (knot.getD i default).X (knot.getD (i + 1) default).X
      (splineDeriv knot (fun v => v.X) i) (splineDeriv knot (fun v => v.X) (i + 1))
    py := CubicPolynomial.Set (knot.getD i default).Y (knot.getD (i + 1) default).Y
      (splineDeriv knot (fun v => v.Y) i) (splineDeriv knot (fun v => v.Y) (i + 1)) }

/-! ## Renderer, part_001 (package `dev`, `renderer3`) -/


/-- The raster-initialization loop of part_001:56-59:
`for i := 3; i < len(fullRender.Pix); i += 4 { fullRender.Pix[i] = 255 }`.
Every byte at index ≡ 3 (mod 4) — the alpha byte of each RGBA pixel — is
set to `255`; every other byte keeps its previous value. -/
def renderInitPixels (pix : List ℕ) : List ℕ :=
  (List.range pix.length).map (fun i => if i % 4 = 3 then 255 else pix.getD i 0)

/-! ### The cached pixel permutation, part_001:63-75 (C5) -/


/-- part_001:66: `pixelCount := boundsSize[0] * boundsSize[1]`. -/
def pixelCount (bounds : ℕ × ℕ) : ℕ := bounds.1 * bounds.2

/-- One swap `l[i], l[j] = l[j], l[i]` — the closure passed to
`rand.Shuffle` at part_001:72-74. -/
def listSwap (l : List ℕ) (i j : ℕ) : List ℕ :=
  (l.set i (l.getD j 0)).set j (l.getD i 0)

/-- Modelled from the `math/rand.Shuffle` contract used at part_001:72:
Fisher–Yates (`for i := n-1; i > 0; i-- { j := rand in [0, i]; swap(i, j) }`),
with the random stream abstracted as `g` (step `i` draws `g i % (i+1)`). -/
def shuffleFrom (g : ℕ → ℕ) : ℕ → List ℕ → List ℕ
  | 0, l => l
  | i + 1, l => shuffleFrom g i (listSwap l (i + 1) (g (i + 1) % (i + 1 + 1)))

/-- Go `rand.Shuffle` over a whole list. -/
def shuffle (g : ℕ → ℕ) (l : List ℕ) : List ℕ :=
  shuffleFrom g (l.length - 1) l

/-- The cache update at the start of every `Render` pass, part_001:67-75:
the permutation is rebuilt (fresh identity slice, then shuffled) iff the
pixel count differs from the cached slice's length; otherwise the cached
slice is reused unchanged. -/
def updatePixelsRand (g : ℕ → ℕ) (cached : List ℕ) (count : ℕ) : List ℕ :=
  if count ≠ cached.length then shuffle g (List.range count) else cached

/-! ### Determinism of the final raster, part_001:106-156 and 174-204 (C8) -/


/-- Go `color.RGBA` of the Go standard library (byte channels). -/
structure RGBA where
  r : ℕ
  g : ℕ
  b : ℕ
  a : ℕ
deriving DecidableEq

/-- part_001:110: the producer maps a pixel index from the permutation to
the pixel coordinate `(idx % W, idx / W)`. -/
def pixelOfIndex (W idx : ℕ) : ℕ × ℕ := (idx % W, idx / W)

/-- part_001:132: the collector's write of one arrived result into the
shared raster, `fullRender.SetRGBA(p[0], p[1], color)` — buffer offset
`y*W + x`.  A result pairs the pixel coordinate with its color. -/
def writePixel (W : ℕ) (buf : List RGBA) (res : (ℕ × ℕ) × RGBA) : List RGBA :=
  buf.set (res.1.2 * W + res.1.1) res.2

/-- The per-pixel results in arrival order `order`: the job for index
`idx` carries pixel `pixelOfIndex W idx` and the color `sample` assigns to
that pixel.  `sample` abstracts `samplePixel` (part_001:174-204): in the Go
it reads only the immutable job fields and shape/camera data (spec §5,
"per-pixel computation is pure"), so it is a pure function of the pixel. -/
def renderResults (sample : ℕ × ℕ → RGBA) (W : ℕ) (order : List ℕ) :
    List ((ℕ × ℕ) × RGBA) :=
  order.map (fun idx => (pixelOfIndex W idx, sample (pixelOfIndex W idx)))

/-- The collector loop of an uncancelled pass (part_001:131-156): fold the
arrived results into the raster, which starts as the post-initialization
buffer (every pixel opaque black, part_001:56-59). -/
def renderFinal (sample : ℕ × ℕ → RGBA) (W H : ℕ) (order : List ℕ) : List RGBA :=
  (renderResults sample W order).foldl (writePixel W)
    (List.replicate (W * H) ⟨0, 0, 0, 255⟩)

/-! ### Nil partial-update sink (C10) -/


/-- Modelled from Go channel semantics for part_001:160
(`close(partialRender)` with no nil guard): closing a nil channel panics. -/
def closeChan (c : Option Unit) : Except String Unit :=
  match c with
  | none => Except.error "close of nil channel"
  | some _ => Except.ok ()

/-- Modelled from Go channel semantics for part_001:151: a send on a
non-nil channel (with the receiver the caller supplies) delivers and
returns. -/
def sendChan (_ : Unit) : Except String Unit := Except.ok ()

/-- The partial-update-sink interactions of one uncancelled `Render` pass:
per batch, the snapshot send of part_001:149-151 is guarded by
`if partialRender != nil` and is skipped on a nil sink. -/
def renderSinkLoop (c : Option Unit) : ℕ → Except String Unit
  | 0 => Except.ok ()
  | b + 1 =>
    match c with
    | some ch =>
      match sendChan ch with
      | Except.ok _ => renderSinkLoop c b
      | Except.error e => Except.error e
    | none => renderSinkLoop c b

/-- A full pass's sink protocol: all batch sends (part_001:149-151), then
the unconditional `close(partialRender)` of part_001:160. -/
def renderSinkPass (c : Option Unit) (batches : ℕ) : Except String Unit :=
  match renderSinkLoop c batches with
  | Except.ok _ => closeChan c
  | Except.error e => Except.error e

/-! ## Theorems -/

/-! ### Basic facts about the solver recursions -/

theorem triDenom_zero (mv : ℕ → V3) : triDenom mv 0 = (mv 0).Y := rfl


theorem triDenom_succ (mv : ℕ → V3) (i : ℕ) :
    triDenom mv (i + 1) = (mv (i + 1)).Y - (mv (i + 1)).X * triCp mv i := rfl

theorem triCp_eq_div (mv : ℕ → V3) (i : ℕ) :
    triCp mv i = (mv i).Z / triDenom mv i := by
  cases i <;> rfl

theorem triDenom_mul_triCp (mv : ℕ → V3) (i : ℕ) (h : triDenom mv i ≠ 0) :
    triDenom mv i * triCp mv i = (mv i).Z := by
  rw [triCp_eq_div, mul_comm, div_mul_cancel₀ _ h]

theorem triY_mul_triFwd_zero (mv : ℕ → V3) (dv : ℕ → ℚ)
    (hy0 : (mv 0).Y ≠ 0) :
    (mv 0).Y * triFwd mv dv 0 = dv 0 := by
  show (mv 0).Y * (dv 0 / (mv 0).Y) = dv 0
  rw [mul_comm, div_mul_cancel₀ _ hy0]

theorem triY_mul_triCp_zero (mv : ℕ → V3) (hy0 : (mv 0).Y ≠ 0) :
    (mv 0).Y * triCp mv 0 = (mv 0).Z := by
  show (mv 0).Y * ((mv 0).Z / (mv 0).Y) = (mv 0).Z
  rw [mul_comm, div_mul_cancel₀ _ hy0]

theorem triDenom_mul_triFwd_succ (mv : ℕ → V3) (dv : ℕ → ℚ) (i : ℕ)
    (h : triDenom mv (i + 1) ≠ 0) :
    triDenom mv (i + 1) * triFwd mv dv (i + 1)
      = dv (i + 1) - (mv (i + 1)).X * triFwd mv dv i := by
  show triDenom mv (i + 1)
      * ((dv (i + 1) - (mv (i + 1)).X * triFwd mv dv i) / triDenom mv (i + 1)) = _
  rw [mul_comm, div_mul_cancel₀ _ h]

theorem triDenom_one (mv : ℕ → V3) :
    triDenom mv 1 = (mv 1).Y - (mv 1).X * ((mv 0).Z / (mv 0).Y) := rfl

theorem triDenom_two (mv : ℕ → V3) :
    triDenom mv 2 = (mv 2).Y - (mv 2).X *
      ((mv 1).Z / ((mv 1).Y - (mv 1).X * ((mv 0).Z / (mv 0).Y))) := rfl

theorem triBack_last (mv : ℕ → V3) (dv : ℕ → ℚ) (n : ℕ) :
    triBack mv dv n (n - 1) = triFwd mv dv (n - 1) := by
  unfold triBack
  rw [Nat.sub_self]
  rfl

theorem triBack_step (mv : ℕ → V3) (dv : ℕ → ℚ) (n i : ℕ) (h : i + 1 < n) :
    triBack mv dv n i = triFwd mv dv i - triCp mv i * triBack mv dv n (i + 1) := by
  unfold triBack
  have hfuel : n - 1 - i = (n - 1 - (i + 1)) + 1 := by omega
  rw [hfuel]
  rfl

/-! ### Row equations satisfied by the back-substituted solution -/

theorem tri_row_single (mv : ℕ → V3) (dv : ℕ → ℚ)
    (hy0 : (mv 0).Y ≠ 0) :
    (mv 0).Y * triBack mv dv 1 0 = dv 0 := by
  have hb : triBack mv dv 1 0 = triFwd mv dv 0 := triBack_last mv dv 1
  rw [hb]
  exact triY_mul_triFwd_zero mv dv hy0


theorem tri_row_first (mv : ℕ → V3) (dv : ℕ → ℚ) (n : ℕ) (hn : 1 < n)
    (hy0 : (mv 0).Y ≠ 0) :
    (mv 0).Y * triBack mv dv n 0 + (mv 0).Z * triBack mv dv n 1 = dv 0 := by
  rw [triBack_step mv dv n 0 (by omega)]
  have hH2 : (mv 0).Y * triFwd mv dv 0 = dv 0 := triY_mul_triFwd_zero mv dv hy0
  have hH1 : (mv 0).Y * triCp mv 0 = (mv 0).Z := triY_mul_triCp_zero mv hy0
  linear_combination hH2 - triBack mv dv n (0 + 1) * hH1

theorem tri_row_interior (mv : ℕ → V3) (dv : ℕ → ℚ) (n j : ℕ)
    (h : j + 1 + 1 < n) (hden : triDenom mv (j + 1) ≠ 0) :
    (mv (j + 1)).X * triBack mv dv n j
      + (mv (j + 1)).Y * triBack mv dv n (j + 1)
      + (mv (j + 1)).Z * triBack mv dv n (j + 1 + 1) = dv (j + 1) := by
  rw [triBack_step mv dv n j (by omega), triBack_step mv dv n (j + 1) h]
  have hH1 : triDenom mv (j + 1) * triCp mv (j + 1) = (mv (j + 1)).Z :=
    triDenom_mul_triCp mv (j + 1) hden
  have hH3 : triDenom mv (j + 1) * triFwd mv dv (j + 1)
      = dv (j + 1) - (mv (j + 1)).X * triFwd mv dv j :=
    triDenom_mul_triFwd_succ mv dv j hden
  have hH4 : triDenom mv (j + 1) = (mv (j + 1)).Y - (mv (j + 1)).X * triCp mv j :=
    triDenom_succ mv j
  linear_combination hH3 - triBack mv dv n (j + 1 + 1) * hH1
    - (triFwd mv dv (j + 1) - triCp mv (j + 1) * triBack mv dv n (j + 1 + 1)) * hH4

theorem tri_row_last (mv : ℕ → V3) (dv : ℕ → ℚ) (j : ℕ)
    (hden : triDenom mv (j + 1) ≠ 0) :
    (mv (j + 1)).X * triBack mv dv (j + 1 + 1) j
      + (mv (j + 1)).Y * triBack mv dv (j + 1 + 1) (j + 1) = dv (j + 1) := by
  have hb : triBack mv dv (j + 1 + 1) (j + 1) = triFwd mv dv (j + 1) := by
    have h := triBack_last mv dv (j + 1 + 1)
    simpa using h
  rw [triBack_step mv dv (j + 1 + 1) j (by omega), hb]
  have hH3 : triDenom mv (j + 1) * triFwd mv dv (j + 1)
      = dv (j + 1) - (mv (j + 1)).X * triFwd mv dv j :=
    triDenom_mul_triFwd_succ mv dv j hden
  have hH4 : triDenom mv (j + 1) = (mv (j + 1)).Y - (mv (j + 1)).X * triCp mv j :=
    triDenom_succ mv j
  linear_combination hH3 - triFwd mv dv (j + 1) * hH4

/-- Core row correctness of the Thomas algorithm, at the level of the
index sequences: if the structural preconditions hold and every
elimination denominator is nonzero, the back-substituted values satisfy
every row equation of the tridiagonal system (with `x[-1]` and `x[n]`
read as `0`). -/
theorem tri_row_core (mv : ℕ → V3) (dv : ℕ → ℚ) (n : ℕ)
    (hden : ∀ i < n, triDenom mv i ≠ 0) :
    ∀ i < n,
      (mv i).X * (if i = 0 then 0 else triBack mv dv n (i - 1))
        + (mv i).Y * triBack mv dv n i
        + (mv i).Z * (if i + 1 < n then triBack mv dv n (i + 1) else 0) = dv i := by
  intro i hi
  have hy0 : (mv 0).Y ≠ 0 := by
    have h := hden 0 (by omega)
    rwa [triDenom_zero] at h
  rcases Nat.eq_zero_or_pos i with hi0 | hipos
  · subst hi0
    rw [if_pos rfl]
    by_cases h1 : 0 + 1 < n
    · rw [if_pos h1]
      have h := tri_row_first mv dv n (by omega) hy0
      linear_combination h
    · have hn1 : n = 1 := by omega
      subst hn1
      rw [if_neg h1]
      have h := tri_row_single mv dv hy0
      linear_combination h
  · obtain ⟨j, rfl⟩ : ∃ j, i = j + 1 := ⟨i - 1, by omega⟩
    rw [if_neg (Nat.succ_ne_zero j)]
    simp only [Nat.add_sub_cancel]
    by_cases h2 : j + 1 + 1 < n
    · rw [if_pos h2]
      have h := tri_row_interior mv dv n j h2 (hden (j + 1) hi)
      linear_combination h
    · have hj : j + 1 + 1 = n := by omega
      rw [if_neg h2]
      have hden' : triDenom mv (j + 1) ≠ 0 := hden (j + 1) hi
      have h := tri_row_last mv dv j hden'
      rw [hj] at h
      linear_combination h

/-! ### List-level solver theorems -/

theorem getD_map_range {α : Type} (f : ℕ → α) (n i : ℕ) (d : α) (h : i < n) :
    ((List.range n).map f).getD i d = f i := by
  have hl : i < ((List.range n).map f).length := by simpa using h
  rw [List.getD_eq_getElem _ _ hl]
  simp


/-- When every precondition holds and no elimination denominator vanishes,
`TriDiagonal` succeeds and returns exactly the back-substituted sequence. -/
theorem TriDiagonal_eq_some (m : List V3) (d : List ℚ)
    (hlen : d.length = m.length) (hn : m.length ≠ 0)
    (hx0 : (m.getD 0 default).X = 0)
    (hzl : (m.getD (m.length - 1) default).Z = 0)
    (hy0 : (m.getD 0 default).Y ≠ 0)
    (hden : ∀ i < m.length, triDenom (fun j => m.getD j default) i ≠ 0) :
    TriDiagonal m d = some ((List.range m.length).map
      (triBack (fun j => m.getD j default) (fun j => d.getD j 0) m.length)) := by
  have hany : ¬((List.range m.length).any
      (fun i => i != 0 && triDenom (fun j => m.getD j default) i == 0) = true) := by
    intro hcontra
    rw [List.any_eq_true] at hcontra
    obtain ⟨i, hmem, hp⟩ := hcontra
    rw [List.mem_range] at hmem
    rw [Bool.and_eq_true, bne_iff_ne, beq_iff_eq] at hp
    exact hden i hmem hp.2
  unfold TriDiagonal
  rw [if_neg (by omega), if_neg hn, if_neg (by push_neg; exact ⟨hx0, hzl⟩),
    if_neg hy0, if_neg hany]

/-- Claim C1: for a well-formed tridiagonal system (matching row/rhs lengths,
zero first sub-diagonal and last super-diagonal entries, nonzero `m[0].Y`)
in which every forward-elimination denominator is nonzero, the vector `x`
returned by `TriDiagonal` satisfies every row equation
`m[i].X*x[i-1] + m[i].Y*x[i] + m[i].Z*x[i+1] = d[i]`
(reading `x[-1]` as `0`; `x[n]` is `0` because `x.getD n 0` falls off the
end of the length-`n` solution), in exact arithmetic. -/
theorem triDiagonal_solves_rows (m : List V3) (d : List ℚ)
    (hn : 1 ≤ m.length) (hlen : d.length = m.length)
    (hx0 : (m.getD 0 default).X = 0)
    (hzl : (m.getD (m.length - 1) default).Z = 0)
    (hy0 : (m.getD 0 default).Y ≠ 0)
    (hden : ∀ i < m.length, triDenom (fun j => m.getD j default) i ≠ 0) :
    ∃ x : List ℚ, TriDiagonal m d = some x ∧ x.length = m.length ∧
      ∀ i < m.length,
        (m.getD i default).X * (if i = 0 then 0 else x.getD (i - 1) 0)
          + (m.getD i default).Y * x.getD i 0
          + (m.getD i default).Z * x.getD (i + 1) 0 = d.getD i 0 := by
  refine ⟨(List.range m.length).map
      (triBack (fun j => m.getD j default) (fun j => d.getD j 0) m.length),
    TriDiagonal_eq_some m d hlen (by omega) hx0 hzl hy0 hden, by simp, ?_⟩
  intro i hi
  have hcore := tri_row_core (fun j => m.getD j default) (fun j => d.getD j 0)
    m.length hden i hi
  have e1 : ((List.range m.length).map
        (triBack (fun j => m.getD j default) (fun j => d.getD j 0) m.length)).getD i 0
      = triBack (fun j => m.getD j default) (fun j => d.getD j 0) m.length i :=
    getD_map_range _ _ _ _ hi
  have e2 : (if i = 0 then (0 : ℚ) else ((List.range m.length).map
        (triBack (fun j => m.getD j default) (fun j => d.getD j 0) m.length)).getD (i - 1) 0)
      = (if i = 0 then (0 : ℚ) else
        triBack (fun j => m.getD j default) (fun j => d.getD j 0) m.length (i - 1)) := by
    by_cases h0 : i = 0
    · rw [if_pos h0, if_pos h0]
    · rw [if_neg h0, if_neg h0, getD_map_range _ _ _ _ (by omega)]
  have e3 : ((List.range m.length).map
        (triBack (fun j => m.getD j default) (fun j => d.getD j 0) m.length)).getD (i + 1) 0
      = (if i + 1 < m.length then
        triBack (fun j => m.getD j default) (fun j => d.getD j 0) m.length (i + 1) else 0) := by
    by_cases hlt : i + 1 < m.length
    · rw [if_pos hlt, getD_map_range _ _ _ _ hlt]
    · rw [if_neg hlt, List.getD_eq_default]
      simpa using hlt
  rw [e2, e1, e3]
  exact hcore

/-- Witness for `triDiagonal_solves_rows` on the concrete system
`(0,2,1),(1,4,1),(1,2,0)` with rhs `3,12,3`. -/
theorem triDiagonal_solves_rows_witness :
    ∃ x : List ℚ,
      TriDiagonal [⟨0, 2, 1⟩, ⟨1, 4, 1⟩, ⟨1, 2, 0⟩] [3, 12, 3] = some x ∧
      x.length = ([⟨0, 2, 1⟩, ⟨1, 4, 1⟩, ⟨1, 2, 0⟩] : List V3).length ∧
      ∀ i < ([⟨0, 2, 1⟩, ⟨1, 4, 1⟩, ⟨1, 2, 0⟩] : List V3).length,
        (([⟨0, 2, 1⟩, ⟨1, 4, 1⟩, ⟨1, 2, 0⟩] : List V3).getD i default).X
            * (if i = 0 then 0 else x.getD (i - 1) 0)
          + (([⟨0, 2, 1⟩, ⟨1, 4, 1⟩, ⟨1, 2, 0⟩] : List V3).getD i default).Y * x.getD i 0
          + (([⟨0, 2, 1⟩, ⟨1, 4, 1⟩, ⟨1, 2, 0⟩] : List V3).getD i default).Z * x.getD (i + 1) 0
          = ([3, 12, 3] : List ℚ).getD i 0 :=
  triDiagonal_solves_rows [⟨0, 2, 1⟩, ⟨1, 4, 1⟩, ⟨1, 2, 0⟩] [3, 12, 3]
    (by decide) rfl rfl rfl (by norm_num)
    (by
      intro i hi
      have h3 : i < 3 := by simpa using hi
      clear hi
      interval_cases i
      · rw [triDenom_zero]; norm_num
      · rw [triDenom_one]; norm_num
      · rw [triDenom_two]; norm_num)

/-- Claim C7: `TriDiagonal` fails (returns no value) exactly when the row
count differs from the rhs length, `m[0].X ≠ 0`, `m[n-1].Z ≠ 0`,
`m[0].Y = 0`, or some forward-elimination denominator (iteration `i ≥ 1`)
is zero; in every such case no solution value is produced. -/
theorem triDiagonal_none_iff (m : List V3) (d : List ℚ) (hn : 1 ≤ m.length) :
    TriDiagonal m d = none ↔
      (d.length ≠ m.length ∨ (m.getD 0 default).X ≠ 0 ∨
        (m.getD (m.length - 1) default).Z ≠ 0 ∨ (m.getD 0 default).Y = 0 ∨
        ∃ i, 1 ≤ i ∧ i < m.length ∧
          triDenom (fun j => m.getD j default) i = 0) := by
  unfold TriDiagonal
  split_ifs with h1 h2 h3 h4 h5
  · exact iff_of_true rfl (Or.inl h1)
  · omega
  · rcases h3 with h | h
    · exact iff_of_true rfl (Or.inr (Or.inl h))
    · exact iff_of_true rfl (Or.inr (Or.inr (Or.inl h)))
  · exact iff_of_true rfl (Or.inr (Or.inr (Or.inr (Or.inl h4))))
  · rw [List.any_eq_true] at h5
    obtain ⟨i, hmem, hp⟩ := h5
    rw [List.mem_range] at hmem
    rw [Bool.and_eq_true, bne_iff_ne, beq_iff_eq] at hp
    exact iff_of_true rfl
      (Or.inr (Or.inr (Or.inr (Or.inr ⟨i, by omega, hmem, hp.2⟩))))
  · refine iff_of_false (by simp) ?_
    intro hr
    rcases hr with h | h | h | h | ⟨i, h1i, h2i, h3i⟩
    · exact h1 h
    · exact h3 (Or.inl h)
    · exact h3 (Or.inr h)
    · exact h4 h
    · refine h5 (List.any_eq_true.mpr ⟨i, List.mem_range.mpr h2i, ?_⟩)
      rw [Bool.and_eq_true, bne_iff_ne, beq_iff_eq]
      exact ⟨by omega, h3i⟩

/-- Witness for `triDiagonal_none_iff`: a one-row system with zero
diagonal really is rejected. -/
theorem triDiagonal_none_iff_witness :
    TriDiagonal [⟨0, 0, 0⟩] [1] = none ↔
      (([1] : List ℚ).length ≠ ([⟨0, 0, 0⟩] : List V3).length ∨
        (([⟨0, 0, 0⟩] : List V3).getD 0 default).X ≠ 0 ∨
        (([⟨0, 0, 0⟩] : List V3).getD (([⟨0, 0, 0⟩] : List V3).length - 1) default).Z ≠ 0 ∨
        (([⟨0, 0, 0⟩] : List V3).getD 0 default).Y = 0 ∨
        ∃ i, 1 ≤ i ∧ i < ([⟨0, 0, 0⟩] : List V3).length ∧
          triDenom (fun j => ([⟨0, 0, 0⟩] : List V3).getD j default) i = 0) :=
  triDiagonal_none_iff [⟨0, 0, 0⟩] [1] (by decide)

theorem CubicPolynomial.Set_f0_zero (y0 y1 D0 D1 : ℚ) :
    (CubicPolynomial.Set y0 y1 D0 D1).f0 0 = y0 := by
  simp [CubicPolynomial.Set, CubicPolynomial.f0]

theorem CubicPolynomial.Set_f0_one (y0 y1 D0 D1 : ℚ) :
    (CubicPolynomial.Set y0 y1 D0 D1).f0 1 = y1 := by
  simp only [CubicPolynomial.Set, CubicPolynomial.f0]
  ring

theorem splineMv_eq (n i : ℕ) (h : i < n) : splineMv n i = splineRow n i :=
  getD_map_range _ _ _ _ h

theorem splineDv_eq (knot : List V2) (g : V2 → ℚ) (i : ℕ) (h : i < knot.length) :
    splineDv knot g i
      = splineRhs (fun j => g (knot.getD j default)) knot.length i :=
  getD_map_range _ _ _ _ h

theorem splineRow_zero (n : ℕ) : splineRow n 0 = ⟨0, 2, 1⟩ := by
  unfold splineRow
  rw [if_pos rfl]

theorem splineRow_mid (n i : ℕ) (h0 : i ≠ 0) (h1 : i ≠ n - 1) :
    splineRow n i = ⟨1, 4, 1⟩ := by
  unfold splineRow
  rw [if_neg h0, if_neg h1]

theorem splineRow_last (n : ℕ) (hn : 2 ≤ n) : splineRow n (n - 1) = ⟨1, 2, 0⟩ := by
  unfold splineRow
  rw [if_neg (by omega), if_pos rfl]

/-- Forward-sweep invariant for the spline system: up to the penultimate
row every denominator is positive and every `cp` lies in `(0, 1/2]`. -/
theorem spline_cp_bounds (n : ℕ) (hn : 2 ≤ n) :
    ∀ i, i ≤ n - 2 → 0 < triDenom (splineMv n) i ∧
      0 < triCp (splineMv n) i ∧ triCp (splineMv n) i ≤ 1 / 2 := by
  intro i
  induction i with
  | zero =>
    intro _
    have h0 : splineMv n 0 = ⟨0, 2, 1⟩ := by
      rw [splineMv_eq n 0 (by omega)]; exact splineRow_zero n
    refine ⟨?_, ?_, ?_⟩
    · rw [triDenom_zero, h0]; norm_num
    · show (0 : ℚ) < (splineMv n 0).Z / (splineMv n 0).Y
      rw [h0]; norm_num
    · show (splineMv n 0).Z / (splineMv n 0).Y ≤ 1 / 2
      rw [h0]
  | succ i ih =>
    intro hi
    obtain ⟨hD, hcp0, hcp2⟩ := ih (by omega)
    have hrow : splineMv n (i + 1) = ⟨1, 4, 1⟩ := by
      rw [splineMv_eq n (i + 1) (by omega)]
      exact splineRow_mid n (i + 1) (by omega) (by omega)
    have hDsucc : triDenom (splineMv n) (i + 1) = 4 - triCp (splineMv n) i := by
      rw [triDenom_succ, hrow]; ring
    have hDpos : 0 < triDenom (splineMv n) (i + 1) := by
      rw [hDsucc]; linarith
    have hD2 : 2 ≤ triDenom (splineMv n) (i + 1) := by
      rw [hDsucc]; linarith
    have hcp : triCp (splineMv n) (i + 1) = 1 / triDenom (splineMv n) (i + 1) := by
      rw [triCp_eq_div, hrow]
    refine ⟨hDpos, ?_, ?_⟩
    · rw [hcp]
      positivity
    · rw [hcp]
      exact one_div_le_one_div_of_le (by norm_num) hD2

/-- Every elimination denominator of the spline system is positive, hence
nonzero: the two `TriDiagonal` calls inside `CubicSpline2D` never panic. -/
theorem spline_denom_pos (n : ℕ) (hn : 2 ≤ n) :
    ∀ i < n, 0 < triDenom (splineMv n) i := by
  intro i hi
  by_cases hend : i = n - 1
  · subst hend
    obtain ⟨k, rfl⟩ : ∃ k, n = k + 2 := ⟨n - 2, by omega⟩
    obtain ⟨hD, hcp0, hcp2⟩ := spline_cp_bounds (k + 2) (by omega) k (by omega)
    have hrow : splineMv (k + 2) (k + 1) = ⟨1, 2, 0⟩ := by
      rw [splineMv_eq (k + 2) (k + 1) (by omega)]
      have h := splineRow_last (k + 2) (by omega)
      simpa using h
    have : (k + 2) - 1 = k + 1 := by omega
    rw [this, triDenom_succ, hrow]
    simp only
    linarith
  · exact (spline_cp_bounds n hn i (by omega)).1

theorem splineMList_length (n : ℕ) : (splineMList n).length = n := by
  simp [splineMList]

theorem splineDList_length (knot : List V2) (g : V2 → ℚ) :
    (splineDList knot g).length = knot.length := by
  simp [splineDList]

/-- The spline tridiagonal system solves for any axis: `TriDiagonal`
returns the derivative list `(range n).map (splineDeriv knot g)`. -/
theorem spline_TriDiagonal (knot : List V2) (g : V2 → ℚ) (hn : 2 ≤ knot.length) :
    TriDiagonal (splineMList knot.length) (splineDList knot g)
      = some ((List.range knot.length).map (splineDeriv knot g)) := by
  have hml := splineMList_length knot.length
  have hdl := splineDList_length knot g
  have h := TriDiagonal_eq_some (splineMList knot.length) (splineDList knot g)
    (by rw [hml, hdl]) (by rw [hml]; omega)
    (by
      show (splineMv knot.length 0).X = 0
      rw [splineMv_eq _ _ (by omega), splineRow_zero])
    (by
      rw [hml]
      show (splineMv knot.length (knot.length - 1)).Z = 0
      rw [splineMv_eq _ _ (by omega), splineRow_last _ hn])
    (by
      show (splineMv knot.length 0).Y ≠ 0
      rw [splineMv_eq _ _ (by omega), splineRow_zero]
      norm_num)
    (by
      intro i hi
      rw [hml] at hi
      exact (spline_denom_pos knot.length hn i hi).ne')
  rw [h, hml]
  rfl

/-- For `N ≥ 2` knots the two solver calls succeed and `CubicSpline2D`
returns exactly the `N-1` segments `splineSeg knot 0 .. splineSeg knot (N-2)`. -/
theorem cubicSpline2D_eq (knot : List V2) (hn : 2 ≤ knot.length) :
    CubicSpline2D knot
      = some ⟨(List.range (knot.length - 1)).map (splineSeg knot)⟩ := by
  unfold CubicSpline2D
  rw [if_neg (by omega), spline_TriDiagonal knot (fun v => v.X) hn,
    spline_TriDiagonal knot (fun v => v.Y) hn]
  refine congrArg some (congrArg CubicSplineSDF2.mk ?_)
  apply List.map_congr_left
  intro i hi
  have hi' : i < knot.length - 1 := List.mem_range.mp hi
  have e1 : ((List.range knot.length).map (splineDeriv knot fun v => v.X)).getD i 0
      = splineDeriv knot (fun v => v.X) i := getD_map_range _ _ _ _ (by omega)
  have e2 : ((List.range knot.length).map (splineDeriv knot fun v => v.X)).getD (i + 1) 0
      = splineDeriv knot (fun v => v.X) (i + 1) := getD_map_range _ _ _ _ (by omega)
  have e3 : ((List.range knot.length).map (splineDeriv knot fun v => v.Y)).getD i 0
      = splineDeriv knot (fun v => v.Y) i := getD_map_range _ _ _ _ (by omega)
  have e4 : ((List.range knot.length).map (splineDeriv knot fun v => v.Y)).getD (i + 1) 0
      = splineDeriv knot (fun v => v.Y) (i + 1) := getD_map_range _ _ _ _ (by omega)
  unfold splineSeg
  rw [e1, e2, e3, e4]

/-! ### Row equations of the spline system, in knot form -/

theorem splineDeriv_row_first (knot : List V2) (g : V2 → ℚ) (hn : 2 ≤ knot.length) :
    2 * splineDeriv knot g 0 + splineDeriv knot g 1
      = 3 * (g (knot.getD 1 default) - g (knot.getD 0 default)) := by
  have hY : (splineMv knot.length 0).Y = 2 := by
    rw [splineMv_eq _ _ (by omega), splineRow_zero]
  have hZ : (splineMv knot.length 0).Z = 1 := by
    rw [splineMv_eq _ _ (by omega), splineRow_zero]
  have hd : splineDv knot g 0
      = 3 * (g (knot.getD 1 default) - g (knot.getD 0 default)) := by
    rw [splineDv_eq _ _ _ (by omega)]
    unfold splineRhs
    rw [if_pos rfl]
  have h := tri_row_first (splineMv knot.length) (splineDv knot g)
    knot.length (by omega) (by rw [hY]; norm_num)
  rw [hY, hZ, hd] at h
  unfold splineDeriv
  linear_combination h


theorem splineDeriv_row_last (knot : List V2) (g : V2 → ℚ) (k : ℕ)
    (hk : knot.length = k + 2) :
    splineDeriv knot g k + 2 * splineDeriv knot g (k + 1)
      = 3 * (g (knot.getD (k + 1) default) - g (knot.getD k default)) := by
  have hn : 2 ≤ knot.length := by omega
  have hX : (splineMv knot.length (k + 1)).X = 1 := by
    rw [splineMv_eq _ _ (by omega)]
    have hidx : k + 1 = knot.length - 1 := by omega
    rw [hidx, splineRow_last _ hn]
  have hY : (splineMv knot.length (k + 1)).Y = 2 := by
    rw [splineMv_eq _ _ (by omega)]
    have hidx : k + 1 = knot.length - 1 := by omega
    rw [hidx, splineRow_last _ hn]
  have hd : splineDv knot g (k + 1)
      = 3 * (g (knot.getD (k + 1) default) - g (knot.getD k default)) := by
    rw [splineDv_eq _ _ _ (by omega)]
    unfold splineRhs
    rw [if_neg (by omega), if_pos (by omega)]
    have h1 : knot.length - 1 = k + 1 := by omega
    have h2 : knot.length - 2 = k := by omega
    rw [h1, h2]
  have hden : triDenom (splineMv knot.length) (k + 1) ≠ 0 :=
    (spline_denom_pos knot.length hn (k + 1) (by omega)).ne'
  have h := tri_row_last (splineMv knot.length) (splineDv knot g) k hden
  have hnn : k + 1 + 1 = knot.length := by omega
  rw [hnn, hX, hY, hd] at h
  unfold splineDeriv
  linear_combination h

/-! ### Find / F0 behavior at integer parameters -/

theorem Clamp_natCast (j n : ℕ) (hj : j ≤ n) :
    Clamp (j : ℚ) 0 (n : ℚ) = (j : ℚ) := by
  unfold Clamp
  rw [if_neg (not_lt.mpr (Nat.cast_nonneg j)), if_neg (not_lt.mpr (by exact_mod_cast hj))]


theorem find_natCast (s : CubicSplineSDF2) (j : ℕ) (hj : j ≤ s.spline.length) :
    s.Find (j : ℚ)
      = if j = s.spline.length then (s.spline.length - 1, 1) else (j, 0) := by
  unfold CubicSplineSDF2.Find
  rw [Clamp_natCast j s.spline.length hj, Int.floor_natCast, Int.toNat_natCast]
  by_cases hj' : j = s.spline.length
  · rw [if_pos hj', if_pos hj']
  · rw [if_neg hj', if_neg hj']
    simp

theorem splineSeg_px (knot : List V2) (i : ℕ) :
    (splineSeg knot i).px
      = CubicPolynomial.Set (knot.getD i default).X (knot.getD (i + 1) default).X
        (splineDeriv knot (fun v => v.X) i) (splineDeriv knot (fun v => v.X) (i + 1)) := rfl

theorem splineSeg_py (knot : List V2) (i : ℕ) :
    (splineSeg knot i).py
      = CubicPolynomial.Set (knot.getD i default).Y (knot.getD (i + 1) default).Y
        (splineDeriv knot (fun v => v.Y) i) (splineDeriv knot (fun v => v.Y) (i + 1)) := rfl

theorem splineSeg_f0_zero (knot : List V2) (i : ℕ) :
    (splineSeg knot i).f0 0 = knot.getD i default := by
  unfold CubicSpline.f0
  rw [splineSeg_px, splineSeg_py, CubicPolynomial.Set_f0_zero, CubicPolynomial.Set_f0_zero]

theorem splineSeg_f0_one (knot : List V2) (i : ℕ) :
    (splineSeg knot i).f0 1 = knot.getD (i + 1) default := by
  unfold CubicSpline.f0
  rw [splineSeg_px, splineSeg_py, CubicPolynomial.Set_f0_one, CubicPolynomial.Set_f0_one]

/-- Go `F0` of the fitted spline hits knot `i` at the integer global
parameter `i` (the boundary case `i = N-1` runs through `Find`'s
last-segment special case). -/
theorem spline_F0_natCast (knot : List V2) (hn : 2 ≤ knot.length)
    (i : ℕ) (hi : i < knot.length) :
    CubicSplineSDF2.F0 ⟨(List.range (knot.length - 1)).map (splineSeg knot)⟩ (i : ℚ)
      = knot.getD i default := by
  have hlen : ((List.range (knot.length - 1)).map (splineSeg knot)).length
      = knot.length - 1 := by simp
  show (((List.range (knot.length - 1)).map (splineSeg knot)).getD
      ((CubicSplineSDF2.Find ⟨(List.range (knot.length - 1)).map (splineSeg knot)⟩ (i : ℚ)).1)
      default).f0
      ((CubicSplineSDF2.Find ⟨(List.range (knot.length - 1)).map (splineSeg knot)⟩ (i : ℚ)).2)
      = knot.getD i default
  rw [find_natCast ⟨(List.range (knot.length - 1)).map (splineSeg knot)⟩ i
    (by show i ≤ ((List.range (knot.length - 1)).map (splineSeg knot)).length
        rw [hlen]; omega)]
  have hsl : (CubicSplineSDF2.mk
      ((List.range (knot.length - 1)).map (splineSeg knot))).spline.length
      = knot.length - 1 := hlen
  rw [hsl]
  by_cases hii : i = knot.length - 1
  · rw [if_pos hii]
    dsimp only
    rw [getD_map_range _ _ _ _ (show knot.length - 1 - 1 < knot.length - 1 by omega)]
    rw [splineSeg_f0_one]
    rw [show knot.length - 1 - 1 + 1 = i by omega]
  · rw [if_neg hii]
    dsimp only
    rw [getD_map_range _ _ _ _ (show i < knot.length - 1 by omega)]
    exact splineSeg_f0_zero knot i

/-- Claim C2: for every ordered sequence of `N ≥ 2` knots, `CubicSpline2D`
builds `N-1` segments; segment `i` evaluates to `knot[i]` at local `t = 0`
and to `knot[i+1]` at local `t = 1`, and `F0 i = knot[i]` for every integer
`0 ≤ i ≤ N-1`: the fitted curve passes through every knot. -/
theorem cubicSpline2D_interpolates (knot : List V2) (hn : 2 ≤ knot.length) :
    ∃ s : CubicSplineSDF2, CubicSpline2D knot = some s ∧
      s.spline.length = knot.length - 1 ∧
      (∀ i < knot.length - 1,
        (s.spline.getD i default).f0 0 = knot.getD i default ∧
        (s.spline.getD i default).f0 1 = knot.getD (i + 1) default) ∧
      (∀ i < knot.length, s.F0 (i : ℚ) = knot.getD i default) := by
  refine ⟨⟨(List.range (knot.length - 1)).map (splineSeg knot)⟩,
    cubicSpline2D_eq knot hn, by simp, ?_, ?_⟩
  · intro i hi
    have hg : (CubicSplineSDF2.mk
        ((List.range (knot.length - 1)).map (splineSeg knot))).spline.getD i default
        = splineSeg knot i := getD_map_range _ _ _ _ hi
    rw [hg]
    exact ⟨splineSeg_f0_zero knot i, splineSeg_f0_one knot i⟩
  · intro i hi
    exact spline_F0_natCast knot hn i hi

/-- Witness for `cubicSpline2D_interpolates` on the two-knot input
`[(0,0), (1,2)]`. -/
theorem cubicSpline2D_interpolates_witness :
    ∃ s : CubicSplineSDF2, CubicSpline2D [⟨0, 0⟩, ⟨1, 2⟩] = some s ∧
      s.spline.length = ([⟨0, 0⟩, ⟨1, 2⟩] : List V2).length - 1 ∧
      (∀ i < ([⟨0, 0⟩, ⟨1, 2⟩] : List V2).length - 1,
        (s.spline.getD i default).f0 0 = ([⟨0, 0⟩, ⟨1, 2⟩] : List V2).getD i default ∧
        (s.spline.getD i default).f0 1
          = ([⟨0, 0⟩, ⟨1, 2⟩] : List V2).getD (i + 1) default) ∧
      (∀ i < ([⟨0, 0⟩, ⟨1, 2⟩] : List V2).length,
        s.F0 (i : ℚ) = ([⟨0, 0⟩, ⟨1, 2⟩] : List V2).getD i default) :=
  cubicSpline2D_interpolates [⟨0, 0⟩, ⟨1, 2⟩] (by decide)

/-! ### Natural boundary condition (C3) -/

theorem Set_f2_zero_eq (y0 y1 D0 D1 : ℚ) :
    (CubicPolynomial.Set y0 y1 D0 D1).f2 0
      = 2 * (3 * (y1 - y0) - 2 * D0 - D1) := by
  simp only [CubicPolynomial.Set, CubicPolynomial.f2]
  ring


theorem Set_f2_one_eq (y0 y1 D0 D1 : ℚ) :
    (CubicPolynomial.Set y0 y1 D0 D1).f2 1
      = 2 * (3 * (y0 - y1) + D0 + 2 * D1) := by
  simp only [CubicPolynomial.Set, CubicPolynomial.f2]
  ring

/-- Claim C3: the fitted curve has zero second derivative at both outer
ends: the first segment's `px.f2 0` and `py.f2 0` vanish and the last
segment's `px.f2 1` and `py.f2 1` vanish, in exact arithmetic. -/
theorem cubicSpline2D_natural_boundary (knot : List V2) (hn : 2 ≤ knot.length) :
    ∃ s : CubicSplineSDF2, CubicSpline2D knot = some s ∧ 1 ≤ s.spline.length ∧
      (s.spline.getD 0 default).px.f2 0 = 0 ∧
      (s.spline.getD 0 default).py.f2 0 = 0 ∧
      (s.spline.getD (s.spline.length - 1) default).px.f2 1 = 0 ∧
      (s.spline.getD (s.spline.length - 1) default).py.f2 1 = 0 := by
  obtain ⟨k, hk⟩ : ∃ k, knot.length = k + 2 := ⟨knot.length - 2, by omega⟩
  refine ⟨⟨(List.range (knot.length - 1)).map (splineSeg knot)⟩,
    cubicSpline2D_eq knot hn, by simp; omega, ?_, ?_, ?_, ?_⟩
  · have hg : (CubicSplineSDF2.mk
        ((List.range (knot.length - 1)).map (splineSeg knot))).spline.getD 0 default
        = splineSeg knot 0 := getD_map_range _ _ _ _ (by omega)
    rw [hg, splineSeg_px, Set_f2_zero_eq]
    have hrow := splineDeriv_row_first knot (fun v => v.X) hn
    dsimp only at hrow
    linear_combination (-2 : ℚ) * hrow
  · have hg : (CubicSplineSDF2.mk
        ((List.range (knot.length - 1)).map (splineSeg knot))).spline.getD 0 default
        = splineSeg knot 0 := getD_map_range _ _ _ _ (by omega)
    rw [hg, splineSeg_py, Set_f2_zero_eq]
    have hrow := splineDeriv_row_first knot (fun v => v.Y) hn
    dsimp only at hrow
    linear_combination (-2 : ℚ) * hrow
  · have hsl : (CubicSplineSDF2.mk
        ((List.range (knot.length - 1)).map (splineSeg knot))).spline.length
        = knot.length - 1 := by simp
    rw [hsl, show knot.length - 1 - 1 = k by omega]
    have hg : (CubicSplineSDF2.mk
        ((List.range (knot.length - 1)).map (splineSeg knot))).spline.getD k default
        = splineSeg knot k := getD_map_range _ _ _ _ (by omega)
    rw [hg, splineSeg_px, Set_f2_one_eq]
    have hrow := splineDeriv_row_last knot (fun v => v.X) k hk
    dsimp only at hrow
    linear_combination (2 : ℚ) * hrow
  · have hsl : (CubicSplineSDF2.mk
        ((List.range (knot.length - 1)).map (splineSeg knot))).spline.length
        = knot.length - 1 := by simp
    rw [hsl, show knot.length - 1 - 1 = k by omega]
    have hg : (CubicSplineSDF2.mk
        ((List.range (knot.length - 1)).map (splineSeg knot))).spline.getD k default
        = splineSeg knot k := getD_map_range _ _ _ _ (by omega)
    rw [hg, splineSeg_py, Set_f2_one_eq]
    have hrow := splineDeriv_row_last knot (fun v => v.Y) k hk
    dsimp only at hrow
    linear_combination (2 : ℚ) * hrow

/-- Witness for `cubicSpline2D_natural_boundary` on `[(0,0), (1,2)]`. -/
theorem cubicSpline2D_natural_boundary_witness :
    ∃ s : CubicSplineSDF2, CubicSpline2D [⟨0, 0⟩, ⟨1, 2⟩] = some s ∧
      1 ≤ s.spline.length ∧
      (s.spline.getD 0 default).px.f2 0 = 0 ∧
      (s.spline.getD 0 default).py.f2 0 = 0 ∧
      (s.spline.getD (s.spline.length - 1) default).px.f2 1 = 0 ∧
      (s.spline.getD (s.spline.length - 1) default).py.f2 1 = 0 :=
  cubicSpline2D_natural_boundary [⟨0, 0⟩, ⟨1, 2⟩] (by decide)

/-! ### Find boundary behavior (C6) -/

theorem Clamp_clamp (t a b : ℚ) (hab : a ≤ b) :
    Clamp (Clamp t a b) a b = Clamp t a b := by
  unfold Clamp
  split_ifs <;> linarith


theorem Clamp_le_right (t a b : ℚ) (hab : a ≤ b) : Clamp t a b ≤ b := by
  unfold Clamp
  split_ifs <;> linarith

/-- Claim C6: for a fitted curve with at least one segment, `Find 0` is
(segment `0`, local `0`); `Find` at the global maximum `N-1` (the segment
count) is (segment `N-2`, local `1`); and on any out-of-range parameter
`Find` first clamps into `[0, N-1]` and returns an in-bounds segment
index, never indexing out of bounds. -/
theorem find_boundary (s : CubicSplineSDF2) (hn : 1 ≤ s.spline.length) :
    s.Find 0 = (0, 0) ∧
    s.Find (s.spline.length : ℚ) = (s.spline.length - 1, 1) ∧
    ∀ t : ℚ, (t < 0 ∨ (s.spline.length : ℚ) < t) →
      s.Find t = s.Find (Clamp t 0 (s.spline.length : ℚ)) ∧
      (s.Find t).1 < s.spline.length := by
  refine ⟨?_, ?_, ?_⟩
  · have h := find_natCast s 0 (by omega)
    rw [Nat.cast_zero] at h
    rw [h, if_neg (by omega)]
  · have h := find_natCast s s.spline.length le_rfl
    rw [h, if_pos rfl]
  · intro t _
    constructor
    · unfold CubicSplineSDF2.Find
      rw [Clamp_clamp t 0 (s.spline.length : ℚ) (by positivity)]
    · unfold CubicSplineSDF2.Find
      have hle : (Int.floor (Clamp t 0 (s.spline.length : ℚ))).toNat
          ≤ s.spline.length := by
        have h1 : Clamp t 0 (s.spline.length : ℚ) ≤ (s.spline.length : ℚ) :=
          Clamp_le_right t 0 _ (by positivity)
        have h2 : Int.floor (Clamp t 0 (s.spline.length : ℚ))
            ≤ Int.floor ((s.spline.length : ℚ)) := Int.floor_le_floor h1
        rw [Int.floor_natCast] at h2
        omega
      by_cases hi : (Int.floor (Clamp t 0 (s.spline.length : ℚ))).toNat
          = s.spline.length
      · rw [if_pos hi]
        dsimp only
        omega
      · rw [if_neg hi]
        dsimp only
        omega

/-- Witness for `find_boundary` on a one-segment curve. -/
theorem find_boundary_witness :
    (⟨[default]⟩ : CubicSplineSDF2).Find 0 = (0, 0) ∧
    (⟨[default]⟩ : CubicSplineSDF2).Find
        ((⟨[default]⟩ : CubicSplineSDF2).spline.length : ℚ)
      = ((⟨[default]⟩ : CubicSplineSDF2).spline.length - 1, 1) ∧
    ∀ t : ℚ, (t < 0 ∨ ((⟨[default]⟩ : CubicSplineSDF2).spline.length : ℚ) < t) →
      (⟨[default]⟩ : CubicSplineSDF2).Find t
          = (⟨[default]⟩ : CubicSplineSDF2).Find
            (Clamp t 0 ((⟨[default]⟩ : CubicSplineSDF2).spline.length : ℚ)) ∧
      ((⟨[default]⟩ : CubicSplineSDF2).Find t).1
          < (⟨[default]⟩ : CubicSplineSDF2).spline.length :=
  find_boundary ⟨[default]⟩ (by simp)

/-! ### The stubbed distance query (C9) -/


/-- Claim C9: the spline curve's distance query `Evaluate` returns exactly
`0` for every point and every curve. -/
theorem evaluate_always_zero (s : CubicSplineSDF2) (p : V2) :
    s.Evaluate p = 0 := rfl

/-- Claim C4 (code-bug evidence): on a fresh fully-transparent one-pixel
raster `[0,0,0,0]`, the initialization of part_001:56-59 produces
`[0,0,0,255]` — alpha `255`, i.e. fully *opaque* black — although the
code's own comment (and the spec) say "set all pixels to transparent"
(fully transparent RGBA has alpha `0`). -/
theorem renderInit_opaque_alpha :
    renderInitPixels [0, 0, 0, 0] = [0, 0, 0, 255] ∧
    (renderInitPixels [0, 0, 0, 0]).getD 3 0 ≠ 0 := by
  decide

theorem getD_set_self {α : Type} (l : List α) :
    ∀ i, i < l.length → ∀ (b : α) (d : α), (l.set i b).getD i d = b := by
  induction l with
  | nil => intro i hi; simp at hi
  | cons x xs ih =>
    intro i hi b d
    cases i with
    | zero => rfl
    | succ i => exact ih i (by simpa using hi) b d

theorem getD_set_ne {α : Type} (l : List α) :
    ∀ i j, i ≠ j → ∀ (b : α) (d : α), (l.set i b).getD j d = l.getD j d := by
  induction l with
  | nil => intro i j _ b d; rfl
  | cons x xs ih =>
    intro i j hij b d
    cases i with
    | zero =>
      cases j with
      | zero => exact absurd rfl hij
      | succ j => rfl
    | succ i =>
      cases j with
      | zero => rfl
      | succ j => exact ih i j (by omega) b d

theorem count_set_add (l : List ℕ) :
    ∀ i, i < l.length → ∀ a b : ℕ,
      (l.set i b).count a + (if a = l.getD i 0 then 1 else 0)
        = l.count a + (if a = b then 1 else 0) := by
  induction l with
  | nil => intro i hi; simp at hi
  | cons x xs ih =>
    intro i hi a b
    cases i with
    | zero =>
      simp only [List.set_cons_zero, List.getD_cons_zero, List.count_cons, beq_iff_eq]
      split_ifs <;> omega
    | succ i =>
      simp only [List.set_cons_succ, List.getD_cons_succ, List.count_cons, beq_iff_eq]
      have h := ih i (by simpa using hi) a b
      split_ifs at h ⊢ <;> omega

theorem listSwap_perm (l : List ℕ) (i j : ℕ) (hi : i < l.length) (hj : j < l.length) :
    (listSwap l i j).Perm l := by
  rw [List.perm_iff_count]
  intro a
  unfold listSwap
  have h1 := count_set_add l i hi a (l.getD j 0)
  have h2 := count_set_add (l.set i (l.getD j 0)) j (by simpa using hj) a (l.getD i 0)
  have hg : (l.set i (l.getD j 0)).getD j 0 = l.getD j 0 := by
    by_cases hij : i = j
    · subst hij
      exact getD_set_self l i hi _ _
    · exact getD_set_ne l i j hij _ _
  rw [hg] at h2
  split_ifs at h1 h2 <;> omega

theorem listSwap_length (l : List ℕ) (i j : ℕ) :
    (listSwap l i j).length = l.length := by
  unfold listSwap
  simp

theorem shuffleFrom_perm (g : ℕ → ℕ) :
    ∀ (i : ℕ) (l : List ℕ), i < l.length → (shuffleFrom g i l).Perm l := by
  intro i
  induction i with
  | zero => intro l _; exact List.Perm.refl _
  | succ i ih =>
    intro l hi
    have hj : g (i + 1) % (i + 1 + 1) < l.length := by
      have := Nat.mod_lt (g (i + 1)) (show 0 < i + 1 + 1 by omega)
      omega
    have hswap : (listSwap l (i + 1) (g (i + 1) % (i + 1 + 1))).Perm l :=
      listSwap_perm l (i + 1) _ hi hj
    have hrec := ih (listSwap l (i + 1) (g (i + 1) % (i + 1 + 1)))
      (by rw [listSwap_length]; omega)
    exact hrec.trans hswap

theorem shuffle_perm (g : ℕ → ℕ) (l : List ℕ) : (shuffle g l).Perm l := by
  unfold shuffle
  cases l with
  | nil => exact List.Perm.refl _
  | cons x xs =>
    exact shuffleFrom_perm g _ _ (by simp)

/-- Claim C5 (counterexample): changing the resolution from 2×3 to 3×2
(same pixel count 6) does *not* regenerate the cached permutation: the
stale cache `[5,4,3,2,1,0]` (a legitimate permutation from the 2×3 pass)
is returned unchanged, and differs from what a regeneration under the same
deterministic swap stream would produce. -/
theorem updatePixelsRand_ignores_shape :
    ((2, 3) : ℕ × ℕ) ≠ (3, 2) ∧
    pixelCount (2, 3) = pixelCount (3, 2) ∧
    ([5, 4, 3, 2, 1, 0] : List ℕ).Perm (List.range (pixelCount (2, 3))) ∧
    updatePixelsRand (fun _ => 0) [5, 4, 3, 2, 1, 0] (pixelCount (3, 2))
      = [5, 4, 3, 2, 1, 0] ∧
    [5, 4, 3, 2, 1, 0] ≠ shuffle (fun _ => 0) (List.range (pixelCount (3, 2))) := by
  decide

/-- Claim C5 (amended): the cached permutation is regenerated exactly when
the pixel *count* changes (not the resolution shape), and in either case
the slice available at the start of the pass is a permutation of
`0 .. pixelCount-1` of the current pass. -/
theorem updatePixelsRand_spec (g : ℕ → ℕ) (cached : List ℕ) (count : ℕ)
    (hc : cached.Perm (List.range cached.length)) :
    (updatePixelsRand g cached count).Perm (List.range count) ∧
    (count ≠ cached.length →
      updatePixelsRand g cached count = shuffle g (List.range count)) ∧
    (count = cached.length → updatePixelsRand g cached count = cached) := by
  unfold updatePixelsRand
  by_cases h : count ≠ cached.length
  · rw [if_pos h]
    exact ⟨shuffle_perm g (List.range count), fun _ => rfl, fun hc' => absurd hc' h⟩
  · rw [if_neg h]
    push_neg at h
    refine ⟨?_, fun hne => absurd h hne, fun _ => rfl⟩
    rw [h]
    exact hc

/-- Witness for `updatePixelsRand_spec`: a 2-pixel cache carried into a
4-pixel pass is regenerated; the result is a permutation of `range 4`. -/
theorem updatePixelsRand_spec_witness :
    (updatePixelsRand (fun n => n) [1, 0] 4).Perm (List.range 4) ∧
    (4 ≠ ([1, 0] : List ℕ).length →
      updatePixelsRand (fun n => n) [1, 0] 4 = shuffle (fun n => n) (List.range 4)) ∧
    (4 = ([1, 0] : List ℕ).length → updatePixelsRand (fun n => n) [1, 0] 4 = [1, 0]) :=
  updatePixelsRand_spec (fun n => n) [1, 0] 4 (by decide)

theorem pixelOfIndex_key (W idx : ℕ) :
    (pixelOfIndex W idx).2 * W + (pixelOfIndex W idx).1 = idx := by
  unfold pixelOfIndex
  dsimp only
  rw [mul_comm]
  exact Nat.div_add_mod idx W

theorem foldl_writePixel_length (W : ℕ) (rs : List ((ℕ × ℕ) × RGBA)) :
    ∀ buf : List RGBA, (rs.foldl (writePixel W) buf).length = buf.length := by
  induction rs with
  | nil => intro buf; rfl
  | cons r rest ih =>
    intro buf
    rw [List.foldl_cons, ih]
    unfold writePixel
    simp

theorem foldl_setIdx_getD (f : ℕ → RGBA) (order : List ℕ) :
    ∀ (buf : List RGBA) (k : ℕ) (d : RGBA), k < buf.length →
      (order.foldl (fun b idx => b.set idx (f idx)) buf).getD k d
        = if k ∈ order then f k else buf.getD k d := by
  induction order with
  | nil =>
    intro buf k d _
    simp
  | cons i rest ih =>
    intro buf k d hk
    rw [List.foldl_cons, ih (buf.set i (f i)) k d (by simpa using hk)]
    by_cases hkr : k ∈ rest
    · rw [if_pos hkr, if_pos (List.mem_cons.mpr (Or.inr hkr))]
    · rw [if_neg hkr]
      by_cases hik : i = k
      · subst hik
        rw [if_pos (List.mem_cons.mpr (Or.inl rfl)), getD_set_self buf i hk]
      · rw [if_neg (by
          intro hmem
          rcases List.mem_cons.mp hmem with h | h
          · exact hik h.symm
          · exact hkr h)]
        rw [getD_set_ne buf i k hik]

/-- The collector fold is the same as writing `sample`'s color directly at
buffer offset `idx` for each arrived index. -/
theorem renderFinal_eq_foldl_set (sample : ℕ × ℕ → RGBA) (W H : ℕ) (order : List ℕ) :
    renderFinal sample W H order
      = order.foldl (fun b idx => b.set idx (sample (pixelOfIndex W idx)))
          (List.replicate (W * H) ⟨0, 0, 0, 255⟩) := by
  unfold renderFinal renderResults
  rw [List.foldl_map]
  have hfn : (fun (b : List RGBA) idx =>
        writePixel W b (pixelOfIndex W idx, sample (pixelOfIndex W idx)))
      = fun (b : List RGBA) idx => b.set idx (sample (pixelOfIndex W idx)) := by
    funext b idx
    unfold writePixel
    dsimp only
    rw [pixelOfIndex_key]
  rw [hfn]

theorem renderFinal_length (sample : ℕ × ℕ → RGBA) (W H : ℕ) (order : List ℕ) :
    (renderFinal sample W H order).length = W * H := by
  unfold renderFinal
  rw [foldl_writePixel_length]
  simp

theorem renderFinal_getD (sample : ℕ × ℕ → RGBA) (W H : ℕ) (order : List ℕ)
    (h : order.Perm (List.range (W * H))) (idx : ℕ) (hidx : idx < W * H) :
    (renderFinal sample W H order).getD idx ⟨0, 0, 0, 255⟩
      = sample (pixelOfIndex W idx) := by
  rw [renderFinal_eq_foldl_set]
  rw [foldl_setIdx_getD _ _ _ _ _ (by simpa using hidx)]
  rw [if_pos (h.mem_iff.mpr (List.mem_range.mpr hidx))]

/-- Claim C8: for a fixed per-pixel sampling function (`samplePixel` is a
pure function of the job: pose, shape and pixel only), the completed
raster of an uncancelled pass is the same for *every* arrival order of the
pixel results — any two orders that each cover every pixel index exactly
once yield identical buffers (worker-pool size can only influence the
arrival order, so the raster is independent of it as well) — and each pixel's
final color is exactly the sampling function applied to that pixel. -/
theorem renderFinal_deterministic (sample : ℕ × ℕ → RGBA) (W H : ℕ)
    (o₁ o₂ : List ℕ)
    (h₁ : o₁.Perm (List.range (W * H))) (h₂ : o₂.Perm (List.range (W * H))) :
    renderFinal sample W H o₁ = renderFinal sample W H o₂ ∧
    ∀ idx < W * H,
      (renderFinal sample W H o₁).getD idx ⟨0, 0, 0, 255⟩
        = sample (pixelOfIndex W idx) := by
  constructor
  · apply List.ext_getElem
    · rw [renderFinal_length, renderFinal_length]
    · intro i hi1 hi2
      have hiWH : i < W * H := by rwa [renderFinal_length] at hi1
      have e1 : (renderFinal sample W H o₁)[i] 
          = (renderFinal sample W H o₁).getD i ⟨0, 0, 0, 255⟩ :=
        (List.getD_eq_getElem _ _ hi1).symm
      have e2 : (renderFinal sample W H o₂)[i] 
          = (renderFinal sample W H o₂).getD i ⟨0, 0, 0, 255⟩ :=
        (List.getD_eq_getElem _ _ hi2).symm
      rw [e1, e2, renderFinal_getD sample W H o₁ h₁ i hiWH,
        renderFinal_getD sample W H o₂ h₂ i hiWH]
  · intro idx hidx
    exact renderFinal_getD sample W H o₁ h₁ idx hidx

/-- Witness for `renderFinal_deterministic`: a 2×2 raster rendered with
two different arrival orders. -/
theorem renderFinal_deterministic_witness :
    renderFinal (fun p => ⟨p.1, p.2, 0, 255⟩) 2 2 [2, 0, 3, 1]
      = renderFinal (fun p => ⟨p.1, p.2, 0, 255⟩) 2 2 [0, 1, 2, 3] ∧
    ∀ idx < 2 * 2,
      (renderFinal (fun p => ⟨p.1, p.2, 0, 255⟩) 2 2 [2, 0, 3, 1]).getD idx ⟨0, 0, 0, 255⟩
        = (fun p => (⟨p.1, p.2, 0, 255⟩ : RGBA)) (pixelOfIndex 2 idx) :=
  renderFinal_deterministic (fun p => ⟨p.1, p.2, 0, 255⟩) 2 2 [2, 0, 3, 1] [0, 1, 2, 3]
    (by decide) (by decide)

/-- Claim C10: with a nil partial-update sink every batch completes (the
guarded sends are skipped, so the nil sink is tolerated throughout the
pixel loop), but the pass then unconditionally closes the nil channel and
panics: it can never return normally, for any number of batches. -/
theorem render_nil_sink_panics (batches : ℕ) :
    renderSinkLoop none batches = Except.ok () ∧
    renderSinkPass none batches = Except.error "close of nil channel" := by
  have hloop : ∀ b, renderSinkLoop none b = Except.ok () := by
    intro b
    induction b with
    | zero => rfl
    | succ b ih => simpa [renderSinkLoop] using ih
  refine ⟨hloop batches, ?_⟩
  unfold renderSinkPass
  rw [hloop batches]
  rfl

end Sdfx
